import Mathlib

/-!
Verification of the rover perception pipeline (`perception.py`).

The pipeline is shallowly embedded:
* images are rectangular lists of RGB triples of naturals (numpy `uint8` grids);
* binary masks are lists of rows of naturals (0/1 values);
* float scalars coming from telemetry (`pos`, `yaw`, `roll`, `pitch`) are
  embedded as rationals (every IEEE float value is a rational), and the
  trigonometric / radical computations are carried out over the reals;
* the persistent world map `Rover.worldmap` (a numpy float array of shape
  `(world_size, world_size, 3)`) is embedded as a function
  `ℤ → ℤ → Fin 3 → ℝ` indexed as `worldmap y x channel`, together with the
  explicit `world_size` bound that the numpy array carries in its shape;
* the perspective warp `perspect_transform` wraps the external
  `cv2.getPerspectiveTransform` / `cv2.warpPerspective` routines (with the
  fixed source and destination quadrilaterals of `perception_step`); it is
  modelled as an abstract parameter `warp : Image → Image` of
  `perception_step`, so every theorem below holds for every possible
  behaviour of the external warp.  The validity mask returned by
  `perspect_transform` is never used by `perception_step` and is omitted.

One numpy semantic point is load-bearing: the in-place update
`Rover.worldmap[ys, xs, c] += 255` with integer fancy indexing is executed
by numpy as gather (`tmp = worldmap[ys, xs, c]`), elementwise add
(`tmp + 255`), then scatter (`worldmap[ys, xs, c] = tmp + 255`, index
positions written in order, last write wins).  When the same cell occurs
several times among the indices, every occurrence writes the same value
`old + 255`, so the cell receives a single net increment of 255 per frame
(this is the documented behaviour that `np.add.at` exists to avoid).
`scatterWrite` / `scatterAdd` below embed exactly this gather–add–scatter
semantics.
-/

namespace RoverPerception

/-- An RGB pixel: channel values of a numpy `uint8` image. -/
abbrev RGB : Type := ℕ × ℕ × ℕ

/-- A camera frame: rows of RGB pixels. -/
abbrev Image : Type := List (List RGB)

/-- A single-channel image (binary masks, scaled overlay channels). -/
abbrev Mask : Type := List (List ℕ)

/-- The persistent world map: `worldmap y x c` is the value of channel `c`
at row `y`, column `x` (numpy indexing `worldmap[y, x, c]`). -/
abbrev Worldmap : Type := ℤ → ℤ → Fin 3 → ℝ

/-- `color_thresh(img, rgb_thresh=(160, 160, 160))`: pixel is 1 iff every
channel strictly exceeds its threshold. -/
def color_thresh (img : Image) (rgb_thresh : ℕ × ℕ × ℕ := (160, 160, 160)) : Mask :=
  img.map (fun row => row.map (fun px =>
    if px.1 > rgb_thresh.1 ∧ px.2.1 > rgb_thresh.2.1 ∧ px.2.2 > rgb_thresh.2.2 then 1 else 0))

/-- `obstacle_thresh(img, rgb_thresh=(160, 160, 160))`: pixel is 1 iff every
channel is strictly below its threshold. -/
def obstacle_thresh (img : Image) (rgb_thresh : ℕ × ℕ × ℕ := (160, 160, 160)) : Mask :=
  img.map (fun row => row.map (fun px =>
    if px.1 < rgb_thresh.1 ∧ px.2.1 < rgb_thresh.2.1 ∧ px.2.2 < rgb_thresh.2.2 then 1 else 0))

/-- `rock_thresh(img)`: pixel is 1 iff each channel lies strictly inside the
fixed band `(100, 100, 20)`–`(255, 255, 30)`. -/
def rock_thresh (img : Image) : Mask :=
  img.map (fun row => row.map (fun px =>
    if (px.1 > 100 ∧ px.1 < 255) ∧ (px.2.1 > 100 ∧ px.2.1 < 255) ∧
       (px.2.2 > 20 ∧ px.2.2 < 30) then 1 else 0))

/-- Indices of the nonzero entries of one row, `j` being the column index of
the row's head; produced left to right. -/
def nonzeroRowAux (i j : ℕ) : List ℕ → List (ℕ × ℕ)
  | [] => []
  | v :: vs => (if v ≠ 0 then [(i, j)] else []) ++ nonzeroRowAux i (j + 1) vs

/-- Indices of the nonzero entries of the rows, `i` being the row index of
the first row. -/
def nonzeroAux (i : ℕ) : List (List ℕ) → List (ℕ × ℕ)
  | [] => []
  | r :: rs => nonzeroRowAux i 0 r ++ nonzeroAux (i + 1) rs

/-- `binary_img.nonzero()`: the `(row, col)` indices of the nonzero pixels,
in row-major (C) order, as numpy returns them. -/
def nonzero (m : Mask) : List (ℕ × ℕ) :=
  nonzeroAux 0 m

/-- `rover_coords(binary_img)`: the nonzero pixels re-expressed in the
rover-centric frame: `x = -(row - H)`, `y = -(col - W/2)` in floating point,
where `H × W` is the mask's shape. -/
def rover_coords (binary_img : Mask) : List (ℚ × ℚ) :=
  let H : ℚ := binary_img.length
  let W : ℚ := (binary_img.headD []).length
  (nonzero binary_img).map (fun p => (-((p.1 : ℚ) - H), -((p.2 : ℚ) - W / 2)))

/-- `np.arctan2(y, x)`: the argument of the point `(x, y)` of the plane,
valued in `(-π, π]` with `atan2 0 0 = 0`, embedded as the argument of the
complex number `x + y·i`. -/
noncomputable def atan2 (y x : ℝ) : ℝ :=
  Complex.arg ⟨x, y⟩

/-- `to_polar_coords(x_pixel, y_pixel)` on a single point:
`(sqrt(x² + y²), arctan2(y, x))`. -/
noncomputable def to_polar_coords (x_pixel y_pixel : ℝ) : ℝ × ℝ :=
  (Real.sqrt (x_pixel ^ 2 + y_pixel ^ 2), atan2 y_pixel x_pixel)

/-- `rotate_pix(xpix, ypix, yaw)`: rotation by `yaw` degrees. -/
noncomputable def rotate_pix (xpix ypix yaw : ℝ) : ℝ × ℝ :=
  let yaw_rad := yaw * Real.pi / 180
  (xpix * Real.cos yaw_rad - ypix * Real.sin yaw_rad,
   xpix * Real.sin yaw_rad + ypix * Real.cos yaw_rad)

/-- `translate_pix(xpix_rot, ypix_rot, xpos, ypos, scale)`: scaling then
translation. -/
noncomputable def translate_pix (xpix_rot ypix_rot xpos ypos scale : ℝ) : ℝ × ℝ :=
  (xpix_rot / scale + xpos, ypix_rot / scale + ypos)

/-- `np.int_` applied to a float: conversion to integer by truncation toward
zero (C-style cast). -/
noncomputable def npInt (x : ℝ) : ℤ :=
  if x < 0 then ⌈x⌉ else ⌊x⌋

/-- `np.clip(v, lo, hi)` on integers: `min(hi, max(lo, v))`. -/
def clip (v lo hi : ℤ) : ℤ :=
  min (max v lo) hi

/-- `pix_to_world(xpix, ypix, xpos, ypos, yaw, world_size, scale)` on a
single point: rotate, translate, integer-convert, clip to
`[0, world_size - 1]`. -/
noncomputable def pix_to_world (xpix ypix xpos ypos yaw : ℝ) (world_size : ℕ) (scale : ℝ) :
    ℤ × ℤ :=
  let r := rotate_pix xpix ypix yaw
  let t := translate_pix r.1 r.2 xpos ypos scale
  (clip (npInt t.1) 0 ((world_size : ℤ) - 1), clip (npInt t.2) 0 ((world_size : ℤ) - 1))

/-- One scatter write of the numpy fancy-indexed `+=`: the written value is
gathered from the map `wm` as it stood before the whole scatter began. -/
noncomputable def scatterWrite (wm : Worldmap) (c : Fin 3) (w : ℝ) (acc : Worldmap)
    (p : ℤ × ℤ) : Worldmap :=
  fun y x ch => if y = p.2 ∧ x = p.1 ∧ ch = c then wm p.2 p.1 c + w else acc y x ch

/-- `wm[ys, xs, c] += w` for the index pairs `pts` (each entry `(x, y)`):
gather from `wm`, add `w`, scatter the results in order. -/
noncomputable def scatterAdd (wm : Worldmap) (pts : List (ℤ × ℤ)) (c : Fin 3) (w : ℝ) :
    Worldmap :=
  pts.foldl (scatterWrite wm c w) wm

/-- `thresh * 255`: scale a binary mask into a displayable overlay channel. -/
def scale255 (m : Mask) : Mask :=
  m.map (fun row => row.map (fun v => v * 255))

/-- The mutable rover state visible to `perception_step`.  `world_size` is
`Rover.worldmap.shape[0]`. -/
structure RoverState where
  img : Image
  pos : ℚ × ℚ
  yaw : ℚ
  roll : ℚ
  pitch : ℚ
  world_size : ℕ
  worldmap : Worldmap
  vision_image : Fin 3 → Mask
  nav_dists : List ℝ
  nav_angles : List ℝ
  rocks_dists : List ℝ
  rocks_angles : List ℝ

/-- The world projection of one rover-centric point at the rover's current
pose, with the fixed `scale = 30` of `perception_step`. -/
noncomputable def worldT (Rover : RoverState) (p : ℚ × ℚ) : ℤ × ℤ :=
  pix_to_world (p.1 : ℝ) (p.2 : ℝ) (Rover.pos.1 : ℝ) (Rover.pos.2 : ℝ) (Rover.yaw : ℝ)
    Rover.world_size 30

/-- The stability gate of step 7 of `perception_step` (two nested `if`s in
the source): roll and pitch both within 2 degrees of level. -/
def stability_gate (Rover : RoverState) : Prop :=
  (Rover.roll < 2 ∨ Rover.roll > 358) ∧ (Rover.pitch < 2 ∨ Rover.pitch > 358)

instance (Rover : RoverState) : Decidable (stability_gate Rover) := by
  unfold stability_gate; infer_instance

/-- `perception_step(Rover)`.  `warp` abstracts the external perspective
transform `perspect_transform(img, src, dst)` (its unused validity mask is
dropped).  Steps, as in the source: warp, threshold into terrain / obstacle
/ rock masks, write the vision overlay, convert masks to rover-centric
coordinates, project to world coordinates at scale 30, accumulate the world
map behind the stability gate, and recompute the polar navigation cues. -/
noncomputable def perception_step (warp : Image → Image) (Rover : RoverState) : RoverState :=
  let warped := warp Rover.img
  let thresh_terrain := color_thresh warped
  let thresh_obstacle := obstacle_thresh warped
  let thresh_rocks := rock_thresh warped
  let xy_terrain := rover_coords thresh_terrain
  let xy_obstacle := rover_coords thresh_obstacle
  let xy_rocks := rover_coords thresh_rocks
  let world_terrain := xy_terrain.map (worldT Rover)
  let world_obstacle := xy_obstacle.map (worldT Rover)
  let world_rocks := xy_rocks.map (worldT Rover)
  let wm :=
    if stability_gate Rover then
      scatterAdd (scatterAdd (scatterAdd Rover.worldmap world_obstacle 0 255)
        world_rocks 1 255) world_terrain 2 255
    else Rover.worldmap
  { Rover with
    vision_image := fun c =>
      if c = 0 then scale255 thresh_obstacle
      else if c = 1 then scale255 thresh_rocks
      else scale255 thresh_terrain
    worldmap := wm
    nav_dists := xy_terrain.map (fun p => (to_polar_coords (p.1 : ℝ) (p.2 : ℝ)).1)
    nav_angles := xy_terrain.map (fun p => (to_polar_coords (p.1 : ℝ) (p.2 : ℝ)).2)
    rocks_dists := xy_rocks.map (fun p => (to_polar_coords (p.1 : ℝ) (p.2 : ℝ)).1)
    rocks_angles := xy_rocks.map (fun p => (to_polar_coords (p.1 : ℝ) (p.2 : ℝ)).2) }

/-- The mask whose world points feed world-map channel `c`:
channel 0 accumulates obstacles, channel 1 rocks, channel 2 terrain. -/
def channel_mask (c : Fin 3) (img : Image) : Mask :=
  if c = 0 then obstacle_thresh img
  else if c = 1 then rock_thresh img
  else color_thresh img

/-- The spec's formula for the world projection: `round` to the nearest
integer, then clip.  Stated for comparison with `pix_to_world`. -/
noncomputable def pix_to_world_spec_round (xpix ypix xpos ypos yaw : ℝ) (world_size : ℕ)
    (scale : ℝ) : ℤ × ℤ :=
  let r := rotate_pix xpix ypix yaw
  let t := translate_pix r.1 r.2 xpos ypos scale
  (clip (round t.1) 0 ((world_size : ℤ) - 1), clip (round t.2) 0 ((world_size : ℤ) - 1))

/-- Truncation toward zero, written independently of `npInt`: keep the sign,
floor the absolute value. -/
noncomputable def trunc_toward_zero (x : ℝ) : ℤ :=
  if 0 ≤ x then ⌊x⌋ else -⌊-x⌋

/-- The amended spec formula for the world projection: truncate toward zero
(the numpy integer cast), then clip. -/
noncomputable def pix_to_world_spec_trunc (xpix ypix xpos ypos yaw : ℝ) (world_size : ℕ)
    (scale : ℝ) : ℤ × ℤ :=
  let r := rotate_pix xpix ypix yaw
  let t := translate_pix r.1 r.2 xpos ypos scale
  (clip (trunc_toward_zero t.1) 0 ((world_size : ℤ) - 1),
   clip (trunc_toward_zero t.2) 0 ((world_size : ℤ) - 1))

/-- Pixel lookup in an image: `img[i][j]` when both indices are in range. -/
def pixAt (img : Image) (i j : ℕ) : Option RGB :=
  (img[i]?).bind (fun row => row[j]?)

/-- Value lookup in a mask: `m[i][j]` when both indices are in range. -/
def maskAt (m : Mask) (i j : ℕ) : Option ℕ :=
  (m[i]?).bind (fun row => row[j]?)

/-- The rotated-and-translated (not yet integer-converted) value computed
inside `pix_to_world`. -/
noncomputable def translated (xpix ypix xpos ypos yaw scale : ℝ) : ℝ × ℝ :=
  translate_pix (rotate_pix xpix ypix yaw).1 (rotate_pix xpix ypix yaw).2 xpos ypos scale

/-- A warp whose output is a single bright (terrain-classified) pixel. -/
def warpBright1 : Image → Image :=
  fun _ => [[(200, 200, 200)]]

/-- A warp whose output is one bright pixel followed by one dark pixel. -/
def warpBrightDark : Image → Image :=
  fun _ => [[(200, 200, 200), (0, 0, 0)]]

/-- A warp whose output is one row of two bright (terrain-classified)
pixels. -/
def warpBright2 : Image → Image :=
  fun _ => [[(200, 200, 200), (200, 200, 200)]]

/-- The all-zero world map (a freshly allocated accumulator). -/
noncomputable def zeroWorldmap : Worldmap :=
  fun _ _ _ => 0

/-- A concrete rover state: level attitude, pose at the world origin with
yaw 0, a 200 × 200 world map of zeros. -/
noncomputable def roverBase : RoverState where
  img := [[(0, 0, 0)]]
  pos := (0, 0)
  yaw := 0
  roll := 0
  pitch := 0
  world_size := 200
  worldmap := zeroWorldmap
  vision_image := fun _ => []
  nav_dists := []
  nav_angles := []
  rocks_dists := []
  rocks_angles := []

/-! ### Characterization of the numpy gather–add–scatter update -/

theorem scatterAdd_foldl_apply (wm : Worldmap) (c : Fin 3) (w : ℝ) :
    ∀ (pts : List (ℤ × ℤ)) (acc : Worldmap) (y x : ℤ) (ch : Fin 3),
      pts.foldl (scatterWrite wm c w) acc y x ch =
        if ch = c ∧ (x, y) ∈ pts then wm y x c + w else acc y x ch := by
  intro pts
  induction pts with
  | nil => intro acc y x ch; simp
  | cons p ps ih =>
    intro acc y x ch
    rw [List.foldl_cons, ih]
    by_cases hmem : ch = c ∧ (x, y) ∈ ps
    · rw [if_pos hmem, if_pos ⟨hmem.1, List.mem_cons_of_mem p hmem.2⟩]
    · rw [if_neg hmem]
      unfold scatterWrite
      by_cases hp : y = p.2 ∧ x = p.1 ∧ ch = c
      · rw [if_pos hp]
        have hxy : (x, y) = p := Prod.ext hp.2.1 hp.1
        rw [if_pos ⟨hp.2.2, by rw [hxy]; exact List.mem_cons_self p ps⟩, hp.1, hp.2.1]
      · rw [if_neg hp]
        rw [if_neg ?_]
        rintro ⟨hc, hm⟩
        rcases List.mem_cons.mp hm with h | h
        · exact hp ⟨(Prod.ext_iff.mp h).2, (Prod.ext_iff.mp h).1, hc⟩
        · exact hmem ⟨hc, h⟩

/-- Pointwise value of the fancy-indexed `+=`: a cell of channel `c` hit by
at least one index pair receives the single net increment `w`; every other
cell is untouched. -/
theorem scatterAdd_apply (wm : Worldmap) (pts : List (ℤ × ℤ)) (c : Fin 3) (w : ℝ)
    (y x : ℤ) (ch : Fin 3) :
    scatterAdd wm pts c w y x ch =
      if ch = c ∧ (x, y) ∈ pts then wm y x c + w else wm y x ch :=
  scatterAdd_foldl_apply wm c w pts wm y x ch

theorem scatterAdd_apply_ne (wm : Worldmap) (pts : List (ℤ × ℤ)) (c : Fin 3) (w : ℝ)
    (y x : ℤ) (ch : Fin 3) (h : ch ≠ c) :
    scatterAdd wm pts c w y x ch = wm y x ch := by
  rw [scatterAdd_apply, if_neg (fun hc => h hc.1)]

theorem le_scatterAdd (wm : Worldmap) (pts : List (ℤ × ℤ)) (c : Fin 3) {w : ℝ}
    (hw : 0 ≤ w) (y x : ℤ) (ch : Fin 3) :
    wm y x ch ≤ scatterAdd wm pts c w y x ch := by
  rw [scatterAdd_apply]
  by_cases h : ch = c ∧ (x, y) ∈ pts
  · rw [if_pos h, h.1]
    exact le_add_of_nonneg_right hw
  · rw [if_neg h]

/-! ### Membership in the nonzero-index lists -/

theorem mem_nonzeroRowAux {i j : ℕ} {row : List ℕ} {p : ℕ × ℕ} :
    p ∈ nonzeroRowAux i j row ↔
      p.1 = i ∧ ∃ k, p.2 = j + k ∧ ∃ v, row[k]? = some v ∧ v ≠ 0 := by
  induction row generalizing j with
  | nil => simp [nonzeroRowAux]
  | cons v vs ih =>
    simp only [nonzeroRowAux, List.mem_append]
    constructor
    · rintro (h | h)
      · by_cases hv : v ≠ 0
        · rw [if_pos hv, List.mem_singleton] at h
          subst h
          exact ⟨rfl, 0, by omega, v, by simp, hv⟩
        · rw [if_neg hv] at h
          simp at h
      · obtain ⟨h1, k, hk, v', hv', hne⟩ := ih.mp h
        exact ⟨h1, k + 1, by omega, v', by simpa using hv', hne⟩
    · rintro ⟨h1, k, hk, v', hv', hne⟩
      cases k with
      | zero =>
        left
        have hv : v = v' := by simpa using hv'
        have hp : p = (i, j) := Prod.ext h1 (by omega)
        rw [hp, if_pos (by rw [hv]; exact hne)]
        exact List.mem_singleton.mpr rfl
      | succ k =>
        right
        exact ih.mpr ⟨h1, k, by omega, v', by simpa using hv', hne⟩

theorem mem_nonzeroAux {i : ℕ} {rows : List (List ℕ)} {p : ℕ × ℕ} :
    p ∈ nonzeroAux i rows ↔
      ∃ r, p.1 = i + r ∧ ∃ row, rows[r]? = some row ∧
        ∃ v, row[p.2]? = some v ∧ v ≠ 0 := by
  induction rows generalizing i with
  | nil => simp [nonzeroAux]
  | cons row rs ih =>
    simp only [nonzeroAux, List.mem_append]
    constructor
    · rintro (h | h)
      · obtain ⟨h1, k, hk, v, hv, hne⟩ := mem_nonzeroRowAux.mp h
        refine ⟨0, by omega, row, by simp, v, ?_, hne⟩
        rw [show p.2 = k by omega]
        exact hv
      · obtain ⟨r, h1, row', hrow', hv⟩ := ih.mp h
        exact ⟨r + 1, by omega, row', by simpa using hrow', hv⟩
    · rintro ⟨r, h1, row', hrow', v, hv, hne⟩
      cases r with
      | zero =>
        left
        have hr : row = row' := by simpa using hrow'
        exact mem_nonzeroRowAux.mpr ⟨by omega, p.2, by omega, v, by rw [hr]; exact hv, hne⟩
      | succ r =>
        right
        exact ih.mpr ⟨r, by omega, row', by simpa using hrow', v, hv, hne⟩

/-- `(i, j)` is listed by `nonzero m` exactly when the mask holds a nonzero
value at row `i`, column `j`. -/
theorem mem_nonzero {m : Mask} {p : ℕ × ℕ} :
    p ∈ nonzero m ↔ ∃ v, maskAt m p.1 p.2 = some v ∧ v ≠ 0 := by
  unfold nonzero maskAt
  rw [mem_nonzeroAux]
  constructor
  · rintro ⟨r, h1, row, hrow, v, hv, hne⟩
    refine ⟨v, ?_, hne⟩
    rw [show p.1 = r by omega, hrow]
    exact hv
  · rintro ⟨v, hv, hne⟩
    cases hrow : m[p.1]? with
    | none => rw [hrow] at hv; simp at hv
    | some row =>
      rw [hrow] at hv
      exact ⟨p.1, by omega, row, hrow, v, hv, hne⟩

theorem nonzero_row_lt {m : Mask} {p : ℕ × ℕ} (h : p ∈ nonzero m) : p.1 < m.length := by
  obtain ⟨v, hv, -⟩ := mem_nonzero.mp h
  unfold maskAt at hv
  cases hrow : m[p.1]? with
  | none => rw [hrow] at hv; simp at hv
  | some row => exact (List.getElem?_eq_some.mp hrow).1

/-! ### The classifier masks, pointwise -/

theorem maskAt_map (f : RGB → ℕ) (img : Image) (i j : ℕ) :
    maskAt (img.map (fun row => row.map f)) i j = (pixAt img i j).map f := by
  unfold maskAt pixAt
  cases himg : img[i]? with
  | none => simp [List.getElem?_map, himg]
  | some row => simp [List.getElem?_map, himg]

theorem mem_nonzero_color_thresh {img : Image} {t : ℕ × ℕ × ℕ} {i j : ℕ} :
    (i, j) ∈ nonzero (color_thresh img t) ↔
      ∃ px, pixAt img i j = some px ∧
        px.1 > t.1 ∧ px.2.1 > t.2.1 ∧ px.2.2 > t.2.2 := by
  rw [mem_nonzero]
  unfold color_thresh
  rw [maskAt_map]
  cases hpx : pixAt img i j with
  | none => simp
  | some px =>
    simp only [Option.map_some', Option.some.injEq]
    constructor
    · rintro ⟨v, hv, hne⟩
      refine ⟨px, rfl, ?_⟩
      by_contra hc
      rw [if_neg hc] at hv
      exact hne hv.symm
    · rintro ⟨px', hpx', h⟩
      cases hpx'
      exact ⟨1, by rw [if_pos h], one_ne_zero⟩

theorem mem_nonzero_obstacle_thresh {img : Image} {t : ℕ × ℕ × ℕ} {i j : ℕ} :
    (i, j) ∈ nonzero (obstacle_thresh img t) ↔
      ∃ px, pixAt img i j = some px ∧
        px.1 < t.1 ∧ px.2.1 < t.2.1 ∧ px.2.2 < t.2.2 := by
  rw [mem_nonzero]
  unfold obstacle_thresh
  rw [maskAt_map]
  cases hpx : pixAt img i j with
  | none => simp
  | some px =>
    simp only [Option.map_some', Option.some.injEq]
    constructor
    · rintro ⟨v, hv, hne⟩
      refine ⟨px, rfl, ?_⟩
      by_contra hc
      rw [if_neg hc] at hv
      exact hne hv.symm
    · rintro ⟨px', hpx', h⟩
      cases hpx'
      exact ⟨1, by rw [if_pos h], one_ne_zero⟩

/-! ### Evaluation helpers for the world projection -/

theorem rotate_pix_yaw_zero (x y : ℝ) : rotate_pix x y 0 = (x, y) := by
  unfold rotate_pix
  simp

theorem npInt_of_nonneg {x : ℝ} (h : 0 ≤ x) : npInt x = ⌊x⌋ :=
  if_neg (not_lt.mpr h)

theorem npInt_of_neg {x : ℝ} (h : x < 0) : npInt x = ⌈x⌉ :=
  if_pos h

theorem npInt_intCast (a : ℤ) : npInt (a : ℝ) = a := by
  unfold npInt
  split
  · exact Int.ceil_intCast a
  · exact Int.floor_intCast a

theorem npInt_eq_zero_of {x : ℝ} (h0 : 0 ≤ x) (h1 : x < 1) : npInt x = 0 := by
  rw [npInt_of_nonneg h0, Int.floor_eq_zero_iff]
  exact ⟨h0, h1⟩

theorem clip_le_bounds {v lo hi : ℤ} (h : lo ≤ hi) :
    lo ≤ clip v lo hi ∧ clip v lo hi ≤ hi :=
  ⟨le_min (le_max_right v lo) h, min_le_right _ _⟩

theorem clip_of_lt {v lo hi : ℤ} (hv : v < lo) (h : lo ≤ hi) : clip v lo hi = lo := by
  unfold clip
  rw [max_eq_right hv.le, min_eq_left h]

theorem clip_of_gt {v lo hi : ℤ} (hv : hi < v) (h : lo ≤ hi) : clip v lo hi = hi := by
  unfold clip
  rw [max_eq_left (h.trans hv.le), min_eq_right hv.le]

theorem clip_of_mem {v lo hi : ℤ} (h0 : lo ≤ v) (h1 : v ≤ hi) : clip v lo hi = v := by
  unfold clip
  rw [max_eq_left h0, min_eq_left h1]

/-- Strictly forward points have their polar angle in the open right
half-circle. -/
theorem atan2_bounds_of_pos {x y : ℝ} (hx : 0 < x) :
    -(Real.pi / 2) < atan2 y x ∧ atan2 y x < Real.pi / 2 := by
  have h : |Complex.arg ⟨x, y⟩| < Real.pi / 2 :=
    Complex.abs_arg_lt_pi_div_two_iff.mpr (Or.inl hx)
  exact abs_lt.mp h

/-! ### The world-map update performed by `perception_step` -/

theorem perception_step_worldmap_not_gate (warp : Image → Image) (Rover : RoverState)
    (hg : ¬ stability_gate Rover) :
    (perception_step warp Rover).worldmap = Rover.worldmap := by
  simp [perception_step, hg]

/-- The three successive fancy-indexed `+=` of step 7, pointwise:
channel `c` of a cell gains `w` exactly when the `c`-th index list hits the
cell; the three updates touch disjoint channels. -/
theorem scatterAdd3_apply (wm : Worldmap) (l0 l1 l2 : List (ℤ × ℤ)) (w : ℝ)
    (y x : ℤ) (c : Fin 3) :
    scatterAdd (scatterAdd (scatterAdd wm l0 0 w) l1 1 w) l2 2 w y x c =
      if (x, y) ∈ (if c = 0 then l0 else if c = 1 then l1 else l2)
      then wm y x c + w else wm y x c := by
  have htri : c = 0 ∨ c = 1 ∨ c = 2 := by revert c; decide
  rcases htri with h | h | h <;> subst h
  · rw [scatterAdd_apply_ne (scatterAdd (scatterAdd wm l0 0 w) l1 1 w) l2 2 w y x 0 (by decide),
      scatterAdd_apply_ne (scatterAdd wm l0 0 w) l1 1 w y x 0 (by decide),
      scatterAdd_apply wm l0 0 w y x 0]
    simp
  · rw [scatterAdd_apply_ne (scatterAdd (scatterAdd wm l0 0 w) l1 1 w) l2 2 w y x 1 (by decide),
      scatterAdd_apply (scatterAdd wm l0 0 w) l1 1 w y x 1,
      scatterAdd_apply_ne wm l0 0 w y x 1 (by decide)]
    simp
  · rw [scatterAdd_apply (scatterAdd (scatterAdd wm l0 0 w) l1 1 w) l2 2 w y x 2,
      scatterAdd_apply_ne (scatterAdd wm l0 0 w) l1 1 w y x 2 (by decide),
      scatterAdd_apply_ne wm l0 0 w y x 2 (by decide)]
    simp

/-- With the gate open, channel `c` of a world cell gains exactly 255 when
at least one world point of the channel's mask lands on it, and is unchanged
otherwise. -/
theorem perception_step_worldmap_gate_apply (warp : Image → Image) (Rover : RoverState)
    (hg : stability_gate Rover) (y x : ℤ) (c : Fin 3) :
    (perception_step warp Rover).worldmap y x c =
      if (x, y) ∈ (rover_coords (channel_mask c (warp Rover.img))).map (worldT Rover)
      then Rover.worldmap y x c + 255 else Rover.worldmap y x c := by
  have h2 : (perception_step warp Rover).worldmap =
      scatterAdd (scatterAdd (scatterAdd Rover.worldmap
        ((rover_coords (obstacle_thresh (warp Rover.img))).map (worldT Rover)) 0 255)
        ((rover_coords (rock_thresh (warp Rover.img))).map (worldT Rover)) 1 255)
        ((rover_coords (color_thresh (warp Rover.img))).map (worldT Rover)) 2 255 := by
    simp [perception_step, hg]
  rw [h2, scatterAdd3_apply]
  have htri : c = 0 ∨ c = 1 ∨ c = 2 := by revert c; decide
  rcases htri with h | h | h <;> subst h <;> simp [channel_mask]

theorem perception_step_worldmap_le (warp : Image → Image) (Rover : RoverState)
    (y x : ℤ) (c : Fin 3) :
    Rover.worldmap y x c ≤ (perception_step warp Rover).worldmap y x c := by
  by_cases hg : stability_gate Rover
  · rw [perception_step_worldmap_gate_apply warp Rover hg y x c]
    by_cases h : (x, y) ∈ (rover_coords (channel_mask c (warp Rover.img))).map (worldT Rover)
    · rw [if_pos h]
      exact le_add_of_nonneg_right (by norm_num)
    · rw [if_neg h]
  · rw [perception_step_worldmap_not_gate warp Rover hg]

/-! ### Claims about the stability gate and the world-map accumulation -/

/-- Claim C3: when roll or pitch is outside the stability gate, every cell
of the persistent world map is unchanged by the call, while the four
navigation cue sequences are still fully recomputed from the same frame
(terrain and rock polar coordinates of the warped, thresholded image). -/
theorem claim_C3_gate_closed_skips_only_worldmap (warp : Image → Image) (Rover : RoverState)
    (hg : ¬ stability_gate Rover) :
    (perception_step warp Rover).worldmap = Rover.worldmap ∧
    (perception_step warp Rover).nav_dists =
      (rover_coords (color_thresh (warp Rover.img))).map
        (fun p => (to_polar_coords (p.1 : ℝ) (p.2 : ℝ)).1) ∧
    (perception_step warp Rover).nav_angles =
      (rover_coords (color_thresh (warp Rover.img))).map
        (fun p => (to_polar_coords (p.1 : ℝ) (p.2 : ℝ)).2) ∧
    (perception_step warp Rover).rocks_dists =
      (rover_coords (rock_thresh (warp Rover.img))).map
        (fun p => (to_polar_coords (p.1 : ℝ) (p.2 : ℝ)).1) ∧
    (perception_step warp Rover).rocks_angles =
      (rover_coords (rock_thresh (warp Rover.img))).map
        (fun p => (to_polar_coords (p.1 : ℝ) (p.2 : ℝ)).2) := by
  refine ⟨perception_step_worldmap_not_gate warp Rover hg, ?_, ?_, ?_, ?_⟩ <;>
    simp [perception_step]

/-- Witness for C3: a rover at roll 10 (outside the gate). -/
theorem claim_C3_gate_closed_skips_only_worldmap_witness :
    (perception_step warpBright1 { roverBase with roll := 10 }).worldmap =
      ({ roverBase with roll := 10 } : RoverState).worldmap ∧
    (perception_step warpBright1 { roverBase with roll := 10 }).nav_dists =
      (rover_coords (color_thresh
          (warpBright1 ({ roverBase with roll := 10 } : RoverState).img))).map
        (fun p => (to_polar_coords (p.1 : ℝ) (p.2 : ℝ)).1) ∧
    (perception_step warpBright1 { roverBase with roll := 10 }).nav_angles =
      (rover_coords (color_thresh
          (warpBright1 ({ roverBase with roll := 10 } : RoverState).img))).map
        (fun p => (to_polar_coords (p.1 : ℝ) (p.2 : ℝ)).2) ∧
    (perception_step warpBright1 { roverBase with roll := 10 }).rocks_dists =
      (rover_coords (rock_thresh
          (warpBright1 ({ roverBase with roll := 10 } : RoverState).img))).map
        (fun p => (to_polar_coords (p.1 : ℝ) (p.2 : ℝ)).1) ∧
    (perception_step warpBright1 { roverBase with roll := 10 }).rocks_angles =
      (rover_coords (rock_thresh
          (warpBright1 ({ roverBase with roll := 10 } : RoverState).img))).map
        (fun p => (to_polar_coords (p.1 : ℝ) (p.2 : ℝ)).2) :=
  claim_C3_gate_closed_skips_only_worldmap warpBright1 { roverBase with roll := 10 }
    (by decide)

/-- Claim C9: world-map cells are monotonically non-decreasing: a single
call never decreases any cell of any channel, and hence neither does any
sequence of successive calls. -/
theorem claim_C9_worldmap_monotone :
    (∀ (warp : Image → Image) (Rover : RoverState) (y x : ℤ) (c : Fin 3),
      Rover.worldmap y x c ≤ (perception_step warp Rover).worldmap y x c) ∧
    (∀ (warp : Image → Image) (Rover : RoverState) (n : ℕ) (y x : ℤ) (c : Fin 3),
      Rover.worldmap y x c ≤ ((perception_step warp)^[n] Rover).worldmap y x c) := by
  refine ⟨perception_step_worldmap_le, ?_⟩
  intro warp Rover n y x c
  induction n with
  | zero => simp
  | succ n ih =>
    rw [Function.iterate_succ_apply']
    exact ih.trans (perception_step_worldmap_le warp _ y x c)

/-- Claim C1 (amended): with the stability gate open, each world cell hit by
at least one world point of the obstacle / rock / terrain set gains exactly
the fixed weight 255 on channel 0 / 1 / 2 for that frame, and unhit cells
are unchanged.  Several points of one set falling on the same cell in one
frame still produce a single net increment of 255 (not one per point): the
numpy fancy-indexed `+=` gathers the old values, adds the weight once, and
scatters the results back. -/
theorem claim_C1_gate_open_weight_255 (warp : Image → Image) (Rover : RoverState)
    (hg : stability_gate Rover) (y x : ℤ) (c : Fin 3) :
    (perception_step warp Rover).worldmap y x c =
      if (x, y) ∈ (rover_coords (channel_mask c (warp Rover.img))).map (worldT Rover)
      then Rover.worldmap y x c + 255 else Rover.worldmap y x c :=
  perception_step_worldmap_gate_apply warp Rover hg y x c

/-- Witness for C1 (amended): level rover, terrain channel at cell (0, 0). -/
theorem claim_C1_gate_open_weight_255_witness :
    (perception_step warpBright1 roverBase).worldmap 0 0 2 =
      if ((0 : ℤ), (0 : ℤ)) ∈
          (rover_coords (channel_mask 2 (warpBright1 roverBase.img))).map (worldT roverBase)
      then roverBase.worldmap 0 0 2 + 255 else roverBase.worldmap 0 0 2 :=
  claim_C1_gate_open_weight_255 warpBright1 roverBase (by decide) 0 0 2

/-- Claim C4: for a terrain mask with exactly one active pixel, the world
map's terrain channel (channel 2) at the pixel's projected world cell
increases by exactly 255 precisely when roll and pitch are both within 2
degrees of zero on either side of the 0–360 scale; outside that condition
no accumulation is applied. -/
theorem claim_C4_single_terrain_pixel_increment (warp : Image → Image) (Rover : RoverState)
    (x y : ℚ) (hone : rover_coords (color_thresh (warp Rover.img)) = [(x, y)]) :
    ((perception_step warp Rover).worldmap (worldT Rover (x, y)).2 (worldT Rover (x, y)).1 2 =
        Rover.worldmap (worldT Rover (x, y)).2 (worldT Rover (x, y)).1 2 + 255)
      ↔ ((Rover.roll < 2 ∨ Rover.roll > 358) ∧ (Rover.pitch < 2 ∨ Rover.pitch > 358)) := by
  constructor
  · intro h
    by_contra hg
    rw [perception_step_worldmap_not_gate warp Rover hg] at h
    have h255 : (0 : ℝ) = 255 := by linarith
    norm_num at h255
  · intro hg
    rw [perception_step_worldmap_gate_apply warp Rover hg]
    have hcm : channel_mask 2 (warp Rover.img) = color_thresh (warp Rover.img) := rfl
    rw [hcm, hone]
    simp

/-- Witness for C4: level rover, a frame with a single bright pixel. -/
theorem claim_C4_single_terrain_pixel_increment_witness :
    (perception_step warpBright1 roverBase).worldmap
        (worldT roverBase (1, 1 / 2)).2 (worldT roverBase (1, 1 / 2)).1 2 =
      roverBase.worldmap (worldT roverBase (1, 1 / 2)).2 (worldT roverBase (1, 1 / 2)).1 2
        + 255 :=
  (claim_C4_single_terrain_pixel_increment warpBright1 roverBase 1 (1 / 2)
    (by simp [rover_coords, nonzero, nonzeroAux, nonzeroRowAux, color_thresh, warpBright1,
      roverBase])).mpr (by decide)

/-! ### Claims about the coordinate transforms and classifiers -/

/-- Claim C7: `to_polar_coords` returns the non-negative Euclidean distance
`sqrt(x² + y²)` and the angle `atan2(y, x)`, which lies in `(-π, π]`. -/
theorem claim_C7_polar_ranges (x y : ℝ) :
    (to_polar_coords x y).1 = Real.sqrt (x ^ 2 + y ^ 2) ∧
    0 ≤ (to_polar_coords x y).1 ∧
    (to_polar_coords x y).2 = atan2 y x ∧
    (to_polar_coords x y).2 ∈ Set.Ioc (-Real.pi) Real.pi :=
  ⟨rfl, Real.sqrt_nonneg _, rfl, Complex.arg_mem_Ioc _⟩

/-- Claim C8: the terrain classifier activates a pixel iff every channel
strictly exceeds its threshold, the obstacle classifier iff every channel is
strictly below it, and for any common threshold no pixel is active in both
masks. -/
theorem claim_C8_terrain_obstacle_disjoint (img : Image) (t : ℕ × ℕ × ℕ) (i j : ℕ) :
    ((i, j) ∈ nonzero (color_thresh img t) ↔
      ∃ px, pixAt img i j = some px ∧
        px.1 > t.1 ∧ px.2.1 > t.2.1 ∧ px.2.2 > t.2.2) ∧
    ((i, j) ∈ nonzero (obstacle_thresh img t) ↔
      ∃ px, pixAt img i j = some px ∧
        px.1 < t.1 ∧ px.2.1 < t.2.1 ∧ px.2.2 < t.2.2) ∧
    ¬((i, j) ∈ nonzero (color_thresh img t) ∧ (i, j) ∈ nonzero (obstacle_thresh img t)) := by
  refine ⟨mem_nonzero_color_thresh, mem_nonzero_obstacle_thresh, ?_⟩
  rintro ⟨h1, h2⟩
  obtain ⟨px, hpx, ha⟩ := mem_nonzero_color_thresh.mp h1
  obtain ⟨px', hpx', hb⟩ := mem_nonzero_obstacle_thresh.mp h2
  rw [hpx] at hpx'
  cases hpx'
  omega

/-! ### Concrete evaluations of the world projection -/

/-- At the origin pose with yaw 0 and the fixed scale 30, small forward
points project to world cell `(0, 0)`. -/
theorem pix_to_world_zero_pose_small (a b : ℝ) (ws : ℕ) (hws : 1 ≤ ws)
    (h1 : 0 ≤ a) (h2 : a < 30) (h3 : 0 ≤ b) (h4 : b < 30) :
    pix_to_world a b 0 0 0 ws 30 = (0, 0) := by
  simp only [pix_to_world, rotate_pix_yaw_zero, translate_pix]
  have e1 : npInt (a / 30 + 0) = 0 := npInt_eq_zero_of (by linarith) (by linarith)
  have e2 : npInt (b / 30 + 0) = 0 := npInt_eq_zero_of (by linarith) (by linarith)
  rw [e1, e2, clip_of_mem le_rfl (by omega)]

/-- Counterexample to C1 as stated: with the gate open, the two bright
pixels of this frame yield two terrain world points on the same cell
`(0, 0)`, yet the terrain channel there gains 255 once — not 255 per
point. -/
theorem claim_C1_counterexample :
    (rover_coords (color_thresh (warpBright2 roverBase.img))).map (worldT roverBase) =
      [(0, 0), (0, 0)] ∧
    (perception_step warpBright2 roverBase).worldmap 0 0 2 =
      roverBase.worldmap 0 0 2 + 255 ∧
    (perception_step warpBright2 roverBase).worldmap 0 0 2 ≠
      roverBase.worldmap 0 0 2 + 255 + 255 := by
  have hmask : rover_coords (color_thresh (warpBright2 roverBase.img)) = [(1, 1), (1, 0)] := by
    norm_num [rover_coords, nonzero, nonzeroAux, nonzeroRowAux, color_thresh, warpBright2,
      roverBase]
  have hw1 : worldT roverBase (1, 1) = (0, 0) := by
    have h := pix_to_world_zero_pose_small 1 1 200 (by norm_num) (by norm_num) (by norm_num)
      (by norm_num) (by norm_num)
    simpa [worldT, roverBase] using h
  have hw0 : worldT roverBase (1, 0) = (0, 0) := by
    have h := pix_to_world_zero_pose_small 1 0 200 (by norm_num) (by norm_num) (by norm_num)
      (by norm_num) (by norm_num)
    simpa [worldT, roverBase] using h
  have hpts : (rover_coords (color_thresh (warpBright2 roverBase.img))).map (worldT roverBase) =
      [(0, 0), (0, 0)] := by
    rw [hmask, List.map_cons, List.map_cons, List.map_nil, hw1, hw0]
  have hcell : (perception_step warpBright2 roverBase).worldmap 0 0 2 =
      roverBase.worldmap 0 0 2 + 255 := by
    rw [perception_step_worldmap_gate_apply warpBright2 roverBase (by decide) 0 0 2]
    have hcm : channel_mask 2 (warpBright2 roverBase.img) =
        color_thresh (warpBright2 roverBase.img) := rfl
    rw [hcm, hpts]
    simp
  refine ⟨hpts, hcell, ?_⟩
  rw [hcell]
  intro h
  have : (0 : ℝ) = 255 := by linarith
  norm_num at this

/-- Counterexample to C2 as stated: at the translated value 0.7 the code's
integer conversion truncates to 0 while the spec's `round` gives 1. -/
theorem claim_C2_counterexample :
    pix_to_world 21 0 0 0 0 200 30 = (0, 0) ∧
    pix_to_world_spec_round 21 0 0 0 0 200 30 = (1, 0) ∧
    pix_to_world 21 0 0 0 0 200 30 ≠ pix_to_world_spec_round 21 0 0 0 0 200 30 := by
  have h1 : pix_to_world 21 0 0 0 0 200 30 = (0, 0) :=
    pix_to_world_zero_pose_small 21 0 200 (by norm_num) (by norm_num) (by norm_num)
      (by norm_num) (by norm_num)
  have h2 : pix_to_world_spec_round 21 0 0 0 0 200 30 = (1, 0) := by
    simp only [pix_to_world_spec_round, rotate_pix_yaw_zero, translate_pix]
    have hr1 : round ((21 : ℝ) / 30 + 0) = 1 := by
      rw [round_eq, Int.floor_eq_iff]
      norm_num
    have hr2 : round ((0 : ℝ) / 30 + 0) = 0 := by norm_num
    rw [hr1, hr2, clip_of_mem (by norm_num) (by norm_num), clip_of_mem le_rfl (by norm_num)]
  refine ⟨h1, h2, ?_⟩
  rw [h1, h2]
  decide

/-- Claim C2 (amended): the world projection converts the translated value
to an integer by truncation toward zero (the numpy integer cast), not by
rounding to the nearest integer, and only then clips to
`[0, worldSize - 1]`. -/
theorem claim_C2_amended_truncates_toward_zero (xpix ypix xpos ypos yaw : ℝ)
    (world_size : ℕ) (scale : ℝ) :
    pix_to_world xpix ypix xpos ypos yaw world_size scale =
      pix_to_world_spec_trunc xpix ypix xpos ypos yaw world_size scale := by
  have h : ∀ v : ℝ, npInt v = trunc_toward_zero v := by
    intro v
    unfold npInt trunc_toward_zero
    rcases lt_or_le v 0 with hv | hv
    · rw [if_pos hv, if_neg (not_le.mpr hv), Int.floor_neg, neg_neg]
    · rw [if_neg (not_lt.mpr hv), if_pos hv]
  simp only [pix_to_world, pix_to_world_spec_trunc, h]

/-- Claim C5: for arbitrary inputs and pose the returned world coordinates
lie in `[0, world_size - 1]`, and clipping is saturating: a truncated value
below 0 is pinned to 0, one above `world_size - 1` is pinned to
`world_size - 1`, and an in-range value is returned unchanged. -/
theorem claim_C5_world_coords_in_bounds_saturating (xpix ypix xpos ypos yaw scale : ℝ)
    (world_size : ℕ) (hws : 1 ≤ world_size) :
    (0 ≤ (pix_to_world xpix ypix xpos ypos yaw world_size scale).1 ∧
      (pix_to_world xpix ypix xpos ypos yaw world_size scale).1 ≤ (world_size : ℤ) - 1 ∧
      0 ≤ (pix_to_world xpix ypix xpos ypos yaw world_size scale).2 ∧
      (pix_to_world xpix ypix xpos ypos yaw world_size scale).2 ≤ (world_size : ℤ) - 1) ∧
    (npInt (translated xpix ypix xpos ypos yaw scale).1 < 0 →
      (pix_to_world xpix ypix xpos ypos yaw world_size scale).1 = 0) ∧
    ((world_size : ℤ) - 1 < npInt (translated xpix ypix xpos ypos yaw scale).1 →
      (pix_to_world xpix ypix xpos ypos yaw world_size scale).1 = (world_size : ℤ) - 1) ∧
    (0 ≤ npInt (translated xpix ypix xpos ypos yaw scale).1 →
      npInt (translated xpix ypix xpos ypos yaw scale).1 ≤ (world_size : ℤ) - 1 →
      (pix_to_world xpix ypix xpos ypos yaw world_size scale).1 =
        npInt (translated xpix ypix xpos ypos yaw scale).1) ∧
    (npInt (translated xpix ypix xpos ypos yaw scale).2 < 0 →
      (pix_to_world xpix ypix xpos ypos yaw world_size scale).2 = 0) ∧
    ((world_size : ℤ) - 1 < npInt (translated xpix ypix xpos ypos yaw scale).2 →
      (pix_to_world xpix ypix xpos ypos yaw world_size scale).2 = (world_size : ℤ) - 1) ∧
    (0 ≤ npInt (translated xpix ypix xpos ypos yaw scale).2 →
      npInt (translated xpix ypix xpos ypos yaw scale).2 ≤ (world_size : ℤ) - 1 →
      (pix_to_world xpix ypix xpos ypos yaw world_size scale).2 =
        npInt (translated xpix ypix xpos ypos yaw scale).2) := by
  have hle : (0 : ℤ) ≤ (world_size : ℤ) - 1 := by omega
  have hw1 : (pix_to_world xpix ypix xpos ypos yaw world_size scale).1 =
      clip (npInt (translated xpix ypix xpos ypos yaw scale).1) 0 ((world_size : ℤ) - 1) := rfl
  have hw2 : (pix_to_world xpix ypix xpos ypos yaw world_size scale).2 =
      clip (npInt (translated xpix ypix xpos ypos yaw scale).2) 0 ((world_size : ℤ) - 1) := rfl
  refine ⟨⟨?_, ?_, ?_, ?_⟩, ?_, ?_, ?_, ?_, ?_, ?_⟩
  · rw [hw1]; exact (clip_le_bounds hle).1
  · rw [hw1]; exact (clip_le_bounds hle).2
  · rw [hw2]; exact (clip_le_bounds hle).1
  · rw [hw2]; exact (clip_le_bounds hle).2
  · intro h; rw [hw1]; exact clip_of_lt h hle
  · intro h; rw [hw1]; exact clip_of_gt h hle
  · intro h0 h1; rw [hw1]; exact clip_of_mem h0 h1
  · intro h; rw [hw2]; exact clip_of_lt h hle
  · intro h; rw [hw2]; exact clip_of_gt h hle
  · intro h0 h1; rw [hw2]; exact clip_of_mem h0 h1

/-- Witness for C5 at a concrete out-of-bounds input. -/
theorem claim_C5_world_coords_in_bounds_saturating_witness :
    (0 ≤ (pix_to_world 3 4 0 0 0 200 30).1 ∧
      (pix_to_world 3 4 0 0 0 200 30).1 ≤ (200 : ℤ) - 1 ∧
      0 ≤ (pix_to_world 3 4 0 0 0 200 30).2 ∧
      (pix_to_world 3 4 0 0 0 200 30).2 ≤ (200 : ℤ) - 1) ∧
    (npInt (translated 3 4 0 0 0 30).1 < 0 → (pix_to_world 3 4 0 0 0 200 30).1 = 0) ∧
    ((200 : ℤ) - 1 < npInt (translated 3 4 0 0 0 30).1 →
      (pix_to_world 3 4 0 0 0 200 30).1 = (200 : ℤ) - 1) ∧
    (0 ≤ npInt (translated 3 4 0 0 0 30).1 →
      npInt (translated 3 4 0 0 0 30).1 ≤ (200 : ℤ) - 1 →
      (pix_to_world 3 4 0 0 0 200 30).1 = npInt (translated 3 4 0 0 0 30).1) ∧
    (npInt (translated 3 4 0 0 0 30).2 < 0 → (pix_to_world 3 4 0 0 0 200 30).2 = 0) ∧
    ((200 : ℤ) - 1 < npInt (translated 3 4 0 0 0 30).2 →
      (pix_to_world 3 4 0 0 0 200 30).2 = (200 : ℤ) - 1) ∧
    (0 ≤ npInt (translated 3 4 0 0 0 30).2 →
      npInt (translated 3 4 0 0 0 30).2 ≤ (200 : ℤ) - 1 →
      (pix_to_world 3 4 0 0 0 200 30).2 = npInt (translated 3 4 0 0 0 30).2) :=
  claim_C5_world_coords_in_bounds_saturating 3 4 0 0 0 30 200 (by decide)

/-- Counterexample to C6 as stated: the pixel in the right half of the image
has rover-centric `y = -1`; after `pix_to_world` with yaw 0, `pos = (0,0)`,
scale 1 the clipped world coordinate is 0, so the round-trip is not the
identity. -/
theorem claim_C6_counterexample :
    rover_coords [[0, 0, 0, 1]] = [(1, -1)] ∧
    pix_to_world ((1 : ℚ) : ℝ) ((-1 : ℚ) : ℝ) 0 0 0 200 1 = (1, 0) ∧
    (((pix_to_world ((1 : ℚ) : ℝ) ((-1 : ℚ) : ℝ) 0 0 0 200 1).2 : ℚ) ≠ (-1 : ℚ)) := by
  have hA : rover_coords [[0, 0, 0, 1]] = [(1, -1)] := by
    norm_num [rover_coords, nonzero, nonzeroAux, nonzeroRowAux]
  have hB : pix_to_world ((1 : ℚ) : ℝ) ((-1 : ℚ) : ℝ) 0 0 0 200 1 = (1, 0) := by
    have hc1 : ((1 : ℚ) : ℝ) = 1 := by norm_num
    have hc2 : ((-1 : ℚ) : ℝ) = -1 := by norm_num
    rw [hc1, hc2]
    simp only [pix_to_world, rotate_pix_yaw_zero, translate_pix]
    have e1 : npInt ((1 : ℝ) / 1 + 0) = 1 := by
      rw [show (1 : ℝ) / 1 + 0 = ((1 : ℤ) : ℝ) by norm_num, npInt_intCast]
    have e2 : npInt ((-1 : ℝ) / 1 + 0) = -1 := by
      rw [show (-1 : ℝ) / 1 + 0 = ((-1 : ℤ) : ℝ) by norm_num, npInt_intCast]
    rw [e1, e2, clip_of_mem (by norm_num) (by norm_num), clip_of_lt (by norm_num) (by norm_num)]
  refine ⟨hA, hB, ?_⟩
  rw [hB]
  norm_num

/-- Claim C6 (amended): the round-trip through `rover_coords` and
`pix_to_world` with yaw 0, `pos = (0, 0)`, scale 1 is the identity exactly
on points whose rover-centric coordinates are integers inside
`[0, world_size - 1]`; other points are altered by the truncating integer
cast (half-integer `y` when the mask width is odd) or by the saturating
clip (negative `y`, i.e. pixels right of the image's center line, and
coordinates at or beyond `world_size`). -/
theorem claim_C6_amended_round_trip (m : Mask) (x y : ℚ) (a b : ℤ) (ws : ℕ)
    (hmem : (x, y) ∈ rover_coords m) (hx : x = (a : ℚ)) (hy : y = (b : ℚ))
    (ha0 : 0 ≤ a) (ha1 : a ≤ (ws : ℤ) - 1) (hb0 : 0 ≤ b) (hb1 : b ≤ (ws : ℤ) - 1) :
    pix_to_world (x : ℝ) (y : ℝ) 0 0 0 ws 1 = (a, b) := by
  subst hx hy
  simp only [pix_to_world, rotate_pix_yaw_zero, translate_pix]
  have e1 : (((a : ℚ) : ℝ)) / 1 + 0 = ((a : ℤ) : ℝ) := by push_cast; ring
  have e2 : (((b : ℚ) : ℝ)) / 1 + 0 = ((b : ℤ) : ℝ) := by push_cast; ring
  rw [e1, e2, npInt_intCast, npInt_intCast, clip_of_mem ha0 ha1, clip_of_mem hb0 hb1]

/-- Witness for C6 (amended): the left-of-center pixel of a 1 × 2 mask
round-trips exactly. -/
theorem claim_C6_amended_round_trip_witness :
    pix_to_world ((1 : ℚ) : ℝ) ((1 : ℚ) : ℝ) 0 0 0 200 1 = (1, 1) :=
  claim_C6_amended_round_trip [[1, 0]] 1 1 1 1 200
    (by norm_num [rover_coords, nonzero, nonzeroAux, nonzeroRowAux])
    (by norm_num) (by norm_num) (by decide) (by decide) (by decide) (by decide)

/-- Claim C10: every rover-centric `x` produced by `rover_coords` lies in
`[1, H]` (in particular it is strictly positive), and consequently every
angle in `nav_angles` and `rocks_angles` of `perception_step` lies strictly
inside `(-π/2, π/2)`: all navigation cues point into the forward
half-plane. -/
theorem claim_C10_forward_half_plane :
    (∀ (m : Mask) (x y : ℚ), (x, y) ∈ rover_coords m → 1 ≤ x ∧ x ≤ (m.length : ℚ)) ∧
    (∀ (warp : Image → Image) (Rover : RoverState) (θ : ℝ),
      θ ∈ (perception_step warp Rover).nav_angles ∨
        θ ∈ (perception_step warp Rover).rocks_angles →
      -(Real.pi / 2) < θ ∧ θ < Real.pi / 2) := by
  have hx : ∀ (m : Mask) (x y : ℚ), (x, y) ∈ rover_coords m →
      1 ≤ x ∧ x ≤ (m.length : ℚ) := by
    intro m x y hmem
    unfold rover_coords at hmem
    rw [List.mem_map] at hmem
    obtain ⟨p, hp, heq⟩ := hmem
    have hlt : p.1 < m.length := nonzero_row_lt hp
    have hx' : x = -((p.1 : ℚ) - (m.length : ℚ)) := ((Prod.ext_iff.mp heq).1).symm
    have hcast : (p.1 : ℚ) + 1 ≤ (m.length : ℚ) := by exact_mod_cast hlt
    have hnn : (0 : ℚ) ≤ (p.1 : ℚ) := by positivity
    constructor
    · rw [hx']; linarith
    · rw [hx']; linarith
  have key : ∀ (mask : Mask) (p : ℚ × ℚ), p ∈ rover_coords mask →
      -(Real.pi / 2) < (to_polar_coords (p.1 : ℝ) (p.2 : ℝ)).2 ∧
        (to_polar_coords (p.1 : ℝ) (p.2 : ℝ)).2 < Real.pi / 2 := by
    intro mask p hp
    have h1 : 1 ≤ p.1 := (hx mask p.1 p.2 hp).1
    have hpos : (0 : ℝ) < (p.1 : ℝ) := by
      have : (0 : ℚ) < p.1 := lt_of_lt_of_le one_pos h1
      exact_mod_cast this
    exact atan2_bounds_of_pos hpos
  refine ⟨hx, ?_⟩
  intro warp Rover θ hθ
  rcases hθ with h | h
  · have hnav : (perception_step warp Rover).nav_angles =
        (rover_coords (color_thresh (warp Rover.img))).map
          (fun p => (to_polar_coords (p.1 : ℝ) (p.2 : ℝ)).2) := by
      simp [perception_step]
    rw [hnav, List.mem_map] at h
    obtain ⟨p, hp, hfp⟩ := h
    rw [← hfp]
    exact key _ p hp
  · have hrocks : (perception_step warp Rover).rocks_angles =
        (rover_coords (rock_thresh (warp Rover.img))).map
          (fun p => (to_polar_coords (p.1 : ℝ) (p.2 : ℝ)).2) := by
      simp [perception_step]
    rw [hrocks, List.mem_map] at h
    obtain ⟨p, hp, hfp⟩ := h
    rw [← hfp]
    exact key _ p hp

/-- Witness for C10 at a concrete mask and frame. -/
theorem claim_C10_forward_half_plane_witness :
    (1 ≤ (1 : ℚ) ∧ (1 : ℚ) ≤ (([[1, 0]] : Mask).length : ℚ)) ∧
    (-(Real.pi / 2) < (to_polar_coords ((1 : ℚ) : ℝ) ((1 : ℚ) : ℝ)).2 ∧
      (to_polar_coords ((1 : ℚ) : ℝ) ((1 : ℚ) : ℝ)).2 < Real.pi / 2) := by
  constructor
  · exact claim_C10_forward_half_plane.1 [[1, 0]] 1 1
      (by norm_num [rover_coords, nonzero, nonzeroAux, nonzeroRowAux])
  · have hnav : (perception_step warpBrightDark roverBase).nav_angles =
        [(to_polar_coords ((1 : ℚ) : ℝ) ((1 : ℚ) : ℝ)).2] := by
      simp [perception_step, rover_coords, nonzero, nonzeroAux, nonzeroRowAux, color_thresh,
        warpBrightDark, roverBase]
    exact claim_C10_forward_half_plane.2 warpBrightDark roverBase _
      (Or.inl (by rw [hnav]; exact List.mem_singleton.mpr rfl))

end RoverPerception
